import Mathlib

/-!
Verification of the gap-filling core of `src/utils/patch_leds_cli.py`
(the "LED patching tool").

The Python source keeps the LED map as a `dict` from integer ids to
records with seven float fields (`x, y, z, xn, yn, zn, error`).  We
embed it shallowly:

* `Record` mirrors one dictionary value; floats are modelled as exact
  rationals (`ℚ`), which matches the spec's "all fields are real
  numbers" reading and keeps every operation computable.
* `LedMap` is an association list with unique keys (`AList`), the
  extensional content of a Python `dict`; `dict.__setitem__` is
  `AList.insert` (replace-or-add), `len` is `LedMap.size`.
* Each Python function of the core becomes a Lean function of the same
  name.  The `while` loop of `patch_leds` becomes `patch_loop`,
  structurally recursive on the remaining iteration budget
  (`max_iterations - iteration`), exactly the bound the source imposes.
* Console printing is I/O and is not part of the embedded state; the
  spec-level terminal states (CONVERGED / STALLED / EXHAUSTED) are
  reconstructed in `PatchState`, following the branch structure of the
  source loop: STALLED is the `patched_this_iteration == 0` break,
  EXHAUSTED is leaving the loop through `iteration < max_iterations`
  with the map still short of the target.

File layout: definitions first (faithful to the source), then the
helper lemmas, then one theorem per specification claim.
-/

namespace GravyMap

/-- Record of one LED, mirroring the dictionary values built by
`load_leds_from_csv`: position `x, y, z`, normal `xn, yn, zn`, and
`error`.  Floats are embedded as exact rationals. -/
structure Record where
  x : ℚ
  y : ℚ
  z : ℚ
  xn : ℚ
  yn : ℚ
  zn : ℚ
  error : ℚ
deriving DecidableEq, Repr, Inhabited

/-- The LED map: a finite mapping from integer ids to records, the
content of the Python `dict` (keys unique; loaded ids may be any
integers). -/
abbrev LedMap : Type := AList (fun _ : ℤ => Record)

/-- Python `len(leds)`: the number of stored entries. -/
def LedMap.size (leds : LedMap) : ℕ := leds.entries.length

/-- Embedding of `find_missing_ids(leds, total_leds)`: the ids of
`range(total_leds)` absent from the map, in ascending order (the
source sorts a set difference; filtering the ascending enumeration of
`range` yields the same sorted list). -/
def find_missing_ids (leds : LedMap) (total_leds : ℤ) : List ℤ :=
  (List.map (fun n : ℕ => (n : ℤ)) (List.range total_leds.toNat)).filter
    (fun i => decide (¬ i ∈ leds.keys))

/-- Embedding of `find_nearest_prev_led(leds, led_id)`: `max` of the
present keys below `led_id`, or `None` when there are none (Python
returns `None` on an empty candidate list, `List.max?` likewise). -/
def find_nearest_prev_led (leds : LedMap) (led_id : ℤ) : Option ℤ :=
  (leds.keys.filter (fun k => decide (k < led_id))).max?

/-- Embedding of `find_nearest_next_led(leds, led_id)`: `min` of the
present keys above `led_id`, or `None` when there are none. -/
def find_nearest_next_led (leds : LedMap) (led_id : ℤ) : Option ℤ :=
  (leds.keys.filter (fun k => decide (led_id < k))).min?

/-- Embedding of `interpolate_led(leds, led_id, prev_id, next_id)`.
The source indexes `leds[prev_id]` and `leds[next_id]` unchecked (the
engine only calls it with present neighbor ids); the embedding reads
them through `lookup`, defaulting to the zero record on the engine's
dead branch.  `fraction = (led_id - prev_id) / (next_id - prev_id)`;
the position is the affine combination of the two neighbors, the
normal is zeroed and the error is `0.0`. -/
def interpolate_led (leds : LedMap) (led_id prev_id next_id : ℤ) : Record :=
  let prev_led := (leds.lookup prev_id).getD default
  let next_led := (leds.lookup next_id).getD default
  let fraction : ℚ := ((led_id - prev_id : ℤ) : ℚ) / ((next_id - prev_id : ℤ) : ℚ)
  { x := prev_led.x * (1 - fraction) + next_led.x * fraction
    y := prev_led.y * (1 - fraction) + next_led.y * fraction
    z := prev_led.z * (1 - fraction) + next_led.z * fraction
    xn := 0
    yn := 0
    zn := 0
    error := 0 }

/-- Embedding of the `for led_id in missing_ids:` body of `patch_leds`:
walk the missing ids in order; when both neighbors exist, insert the
interpolated record into the shared map immediately and count it.
Returns the grown map together with `patched_this_iteration`. -/
def patch_iteration : LedMap → List ℤ → LedMap × ℕ
  | leds, [] => (leds, 0)
  | leds, led_id :: rest =>
    match find_nearest_prev_led leds led_id, find_nearest_next_led leds led_id with
    | some prev_id, some next_id =>
      let r := patch_iteration
        (leds.insert led_id (interpolate_led leds led_id prev_id next_id)) rest
      (r.1, r.2 + 1)
    | _, _ => patch_iteration leds rest

/-- Terminal states of the engine, per the spec's state machine:
`converged` (map reached the target size, or no ids are missing),
`stalled` (an iteration patched zero ids while ids were missing),
`exhausted` (iteration cap hit while the map is still short). -/
inductive PatchState where
  | converged : PatchState
  | stalled : PatchState
  | exhausted : PatchState
deriving DecidableEq, Repr

/-- Embedding of the `while len(leds) < total_leds and iteration <
max_iterations:` loop of `patch_leds`, recursing on the remaining
iteration budget.  Mirrors the source branch for branch: the
`not missing_ids` break, the `patched_this_iteration == 0` break
(STALLED), and falling out of the guard. -/
def patch_loop (total_leds : ℤ) : ℕ → LedMap → LedMap × PatchState
  | 0, leds =>
    (leds, if (leds.size : ℤ) < total_leds then PatchState.exhausted
           else PatchState.converged)
  | fuel + 1, leds =>
    if (leds.size : ℤ) < total_leds then
      let missing := find_missing_ids leds total_leds
      if missing = [] then (leds, PatchState.converged)
      else
        let r := patch_iteration leds missing
        if r.2 = 0 then (r.1, PatchState.stalled)
        else patch_loop total_leds fuel r.1
    else (leds, PatchState.converged)

/-- Embedding of `patch_leds(input_csv, total_leds, max_iterations)`,
starting from the already-loaded map (CSV reading is external I/O):
run the loop and return the final map, best-effort included. -/
def patch_leds (leds : LedMap) (total_leds : ℤ) (max_iterations : ℕ) : LedMap :=
  (patch_loop total_leds max_iterations leds).1

/-- Companion to `patch_loop` returning the spec-level terminal state
alongside the map. -/
def patch_leds_run (leds : LedMap) (total_leds : ℤ) (max_iterations : ℕ) :
    LedMap × PatchState :=
  patch_loop total_leds max_iterations leds

/-- The sequence of loop states at which `patch_leds` actually executes
an interpolation pass (guard true and missing ids present), in order.
Used to phrase trace-level claims about the iterations the engine
performs. -/
def iter_states (total_leds : ℤ) : ℕ → LedMap → List LedMap
  | 0, _ => []
  | fuel + 1, leds =>
    if (leds.size : ℤ) < total_leds then
      let missing := find_missing_ids leds total_leds
      if missing = [] then []
      else
        let r := patch_iteration leds missing
        if r.2 = 0 then [leds]
        else leds :: iter_states total_leds fuel r.1
    else []

/-- An id is an interior gap for a key set when some present key lies
strictly below it and some present key strictly above it (the spec's
"interior gap": patchable). -/
def bounded_by (keys : List ℤ) (i : ℤ) : Prop :=
  (∃ k ∈ keys, k < i) ∧ (∃ k ∈ keys, i < k)

instance (keys : List ℤ) (i : ℤ) : Decidable (bounded_by keys i) := by
  unfold bounded_by; infer_instance

/-- The spec's stall criterion: every remaining missing id lies below
every present key or above every present key (below the minimum
present id or above the maximum present id). -/
def edge_only (leds : LedMap) (total_leds : ℤ) : Prop :=
  ∀ i ∈ find_missing_ids leds total_leds,
    (∀ k ∈ leds.keys, i < k) ∨ (∀ k ∈ leds.keys, k < i)

instance (leds : LedMap) (total_leds : ℤ) : Decidable (edge_only leds total_leds) := by
  unfold edge_only; infer_instance

/-! Concrete maps used as test inputs

The records and targets below reproduce the scenarios named in the
spec's testable properties: the interpolation example `{0:(0,0,0),
5:(10,0,0)}` with target 6, the stall scenario `{2:P, 4:Q}` with
target 5, a map whose loaded ids lie outside `[0, total)`, a map with
only edge gaps, and the intra-iteration propagation example
`{0:(0,0,0), 4:(10,0,0)}` with target 5. -/

def exInterp : LedMap :=
  ((∅ : LedMap).insert 0 ⟨0, 0, 0, 0, 0, 0, 0⟩).insert 5 ⟨10, 0, 0, 0, 0, 0, 0⟩

def exm1 : LedMap := exInterp.insert 1 (interpolate_led exInterp 1 0 5)

def exm2 : LedMap := exm1.insert 2 (interpolate_led exm1 2 1 5)

def exm3 : LedMap := exm2.insert 3 (interpolate_led exm2 3 2 5)

def exm4 : LedMap := exm3.insert 4 (interpolate_led exm3 4 3 5)

def exStall : LedMap :=
  ((∅ : LedMap).insert 2 ⟨1, 2, 3, 0, 0, 0, 0⟩).insert 4 ⟨5, 6, 7, 0, 0, 0, 0⟩

def exProp : LedMap :=
  ((∅ : LedMap).insert 0 ⟨0, 0, 0, 0, 0, 0, 0⟩).insert 4 ⟨10, 0, 0, 0, 0, 0, 0⟩

def exOut : LedMap :=
  ((∅ : LedMap).insert 3 ⟨1, 1, 1, 0, 0, 0, 0⟩).insert 5 ⟨2, 2, 2, 0, 0, 0, 0⟩

def exEdge : LedMap := (∅ : LedMap).insert 2 ⟨1, 2, 3, 0, 0, 0, 0⟩

/-! Basic lemmas on the neighbor queries -/

instance : Std.Antisymm (fun a b : ℤ => a ≤ b) :=
  ⟨fun h h' => le_antisymm h h'⟩

theorem int_max?_eq_some_iff {l : List ℤ} {a : ℤ} :
    l.max? = some a ↔ a ∈ l ∧ ∀ b ∈ l, b ≤ a :=
  List.max?_eq_some_iff (fun a => le_refl a) (fun a b => max_choice a b)
    (fun _ _ _ => max_le_iff)

theorem int_min?_eq_some_iff {l : List ℤ} {a : ℤ} :
    l.min? = some a ↔ a ∈ l ∧ ∀ b ∈ l, a ≤ b :=
  List.min?_eq_some_iff (fun a => le_refl a) (fun a b => min_choice a b)
    (fun _ _ _ => le_min_iff)

theorem find_nearest_prev_led_eq_some {leds : LedMap} {i p : ℤ} :
    find_nearest_prev_led leds i = some p ↔
      (p ∈ leds.keys ∧ p < i) ∧ ∀ k ∈ leds.keys, k < i → k ≤ p := by
  simp only [find_nearest_prev_led, int_max?_eq_some_iff, List.mem_filter,
    decide_eq_true_eq]
  tauto

theorem find_nearest_next_led_eq_some {leds : LedMap} {i n : ℤ} :
    find_nearest_next_led leds i = some n ↔
      (n ∈ leds.keys ∧ i < n) ∧ ∀ k ∈ leds.keys, i < k → n ≤ k := by
  simp only [find_nearest_next_led, int_min?_eq_some_iff, List.mem_filter,
    decide_eq_true_eq]
  tauto

theorem find_nearest_prev_led_eq_none {leds : LedMap} {i : ℤ} :
    find_nearest_prev_led leds i = none ↔ ∀ k ∈ leds.keys, ¬ k < i := by
  simp only [find_nearest_prev_led, List.max?_eq_none_iff,
    List.filter_eq_nil_iff, decide_eq_true_eq]

theorem find_nearest_next_led_eq_none {leds : LedMap} {i : ℤ} :
    find_nearest_next_led leds i = none ↔ ∀ k ∈ leds.keys, ¬ i < k := by
  simp only [find_nearest_next_led, List.min?_eq_none_iff,
    List.filter_eq_nil_iff, decide_eq_true_eq]

theorem find_nearest_prev_led_isSome {leds : LedMap} {i : ℤ} :
    (find_nearest_prev_led leds i).isSome ↔ ∃ k ∈ leds.keys, k < i := by
  rcases h : find_nearest_prev_led leds i with _ | p
  · rw [find_nearest_prev_led_eq_none] at h
    simp only [Option.isSome_none, Bool.false_eq_true, false_iff]
    exact fun ⟨k, hk, hki⟩ => h k hk hki
  · rw [find_nearest_prev_led_eq_some] at h
    simp only [Option.isSome_some, true_iff]
    exact ⟨p, h.1.1, h.1.2⟩

theorem find_nearest_next_led_isSome {leds : LedMap} {i : ℤ} :
    (find_nearest_next_led leds i).isSome ↔ ∃ k ∈ leds.keys, i < k := by
  rcases h : find_nearest_next_led leds i with _ | n
  · rw [find_nearest_next_led_eq_none] at h
    simp only [Option.isSome_none, Bool.false_eq_true, false_iff]
    exact fun ⟨k, hk, hki⟩ => h k hk hki
  · rw [find_nearest_next_led_eq_some] at h
    simp only [Option.isSome_some, true_iff]
    exact ⟨n, h.1.1, h.1.2⟩

/-! Basic lemmas on the map operations -/

theorem mem_keys_insert {leds : LedMap} {a k : ℤ} {b : Record} :
    k ∈ (leds.insert a b).keys ↔ k = a ∨ k ∈ leds.keys := by
  rw [← AList.mem_keys, AList.mem_insert, AList.mem_keys]

theorem lookup_insert_of_ne {leds : LedMap} {a k : ℤ} {b : Record} (h : k ≠ a) :
    (leds.insert a b).lookup k = leds.lookup k :=
  AList.lookup_insert_ne h

theorem size_insert_of_not_mem {leds : LedMap} {a : ℤ} {b : Record}
    (h : ¬ a ∈ leds.keys) :
    LedMap.size (leds.insert a b) = LedMap.size leds + 1 := by
  have h' : a ∉ leds := by rwa [AList.mem_keys]
  have hk : a ∉ leds.entries.keys := h
  simp [LedMap.size, AList.insert_entries_of_neg h', List.kerase_of_not_mem_keys hk]

theorem size_eq_keys_length (leds : LedMap) : leds.size = leds.keys.length := by
  simp [LedMap.size, AList.keys, List.keys, List.length_map]

/-! Basic lemmas on `find_missing_ids` -/

theorem mem_find_missing_ids {leds : LedMap} {total_leds i : ℤ} :
    i ∈ find_missing_ids leds total_leds ↔
      0 ≤ i ∧ i < total_leds ∧ ¬ i ∈ leds.keys := by
  constructor
  · intro hmem
    rw [find_missing_ids, List.mem_filter] at hmem
    obtain ⟨hmap, hdec⟩ := hmem
    rw [List.mem_map] at hmap
    obtain ⟨n, hn, rfl⟩ := hmap
    rw [List.mem_range] at hn
    exact ⟨by omega, by omega, of_decide_eq_true hdec⟩
  · rintro ⟨h0, hlt, h⟩
    rw [find_missing_ids, List.mem_filter]
    refine ⟨List.mem_map.mpr ⟨i.toNat, List.mem_range.mpr (by omega), by omega⟩,
      decide_eq_true h⟩

theorem find_missing_ids_sorted (leds : LedMap) (total_leds : ℤ) :
    (find_missing_ids leds total_leds).Pairwise (· < ·) := by
  apply List.Pairwise.filter
  rw [List.pairwise_map]
  exact (List.sorted_lt_range _).imp (fun h => by omega)

theorem find_missing_ids_nodup (leds : LedMap) (total_leds : ℤ) :
    (find_missing_ids leds total_leds).Nodup :=
  (find_missing_ids_sorted leds total_leds).imp ne_of_lt

/-! Unfolding equations of `patch_iteration` -/

theorem patch_iteration_nil (leds : LedMap) : patch_iteration leds [] = (leds, 0) :=
  rfl

theorem patch_iteration_cons_patch {leds : LedMap} {i p n : ℤ} {rest : List ℤ}
    (hp : find_nearest_prev_led leds i = some p)
    (hn : find_nearest_next_led leds i = some n) :
    patch_iteration leds (i :: rest) =
      ((patch_iteration (leds.insert i (interpolate_led leds i p n)) rest).1,
       (patch_iteration (leds.insert i (interpolate_led leds i p n)) rest).2 + 1) := by
  simp only [patch_iteration, hp, hn]

theorem patch_iteration_cons_no_prev {leds : LedMap} {i : ℤ} {rest : List ℤ}
    (hp : find_nearest_prev_led leds i = none) :
    patch_iteration leds (i :: rest) = patch_iteration leds rest := by
  simp only [patch_iteration, hp]

theorem patch_iteration_cons_no_next {leds : LedMap} {i : ℤ} {rest : List ℤ}
    (hn : find_nearest_next_led leds i = none) :
    patch_iteration leds (i :: rest) = patch_iteration leds rest := by
  rcases hp : find_nearest_prev_led leds i with _ | p <;>
    simp only [patch_iteration, hp, hn]

/-! One pass over the missing ids, characterized

The key observation: an insertion performed mid-pass always has a
present key strictly below it and one strictly above it, so the set of
ids that have some key below (resp. above) them never changes during
the pass.  Consequently whether an id gets patched is determined by
the key set `K0` at the start of the pass alone. -/

theorem exists_lt_key_insert {leds : LedMap} {i0 : ℤ} {b : Record}
    (h : ∃ k ∈ leds.keys, k < i0) (i : ℤ) :
    (∃ k ∈ (leds.insert i0 b).keys, k < i) ↔ ∃ k ∈ leds.keys, k < i := by
  constructor
  · rintro ⟨k, hk, hki⟩
    rw [mem_keys_insert] at hk
    rcases hk with rfl | hk
    · obtain ⟨k', hk', hlt⟩ := h
      exact ⟨k', hk', by omega⟩
    · exact ⟨k, hk, hki⟩
  · rintro ⟨k, hk, hki⟩
    exact ⟨k, mem_keys_insert.mpr (Or.inr hk), hki⟩

theorem exists_gt_key_insert {leds : LedMap} {i0 : ℤ} {b : Record}
    (h : ∃ k ∈ leds.keys, i0 < k) (i : ℤ) :
    (∃ k ∈ (leds.insert i0 b).keys, i < k) ↔ ∃ k ∈ leds.keys, i < k := by
  constructor
  · rintro ⟨k, hk, hki⟩
    rw [mem_keys_insert] at hk
    rcases hk with rfl | hk
    · obtain ⟨k', hk', hlt⟩ := h
      exact ⟨k', hk', by omega⟩
    · exact ⟨k, hk, hki⟩
  · rintro ⟨k, hk, hki⟩
    exact ⟨k, mem_keys_insert.mpr (Or.inr hk), hki⟩

/-- Master characterization of a single interpolation pass, relative to
the key set `K0` the pass started from: membership in the resulting
map, the `patched_this_iteration` counter, preservation of the records
already present, and the no-progress case. -/
theorem patch_iteration_spec (K0 : List ℤ) :
    ∀ (ms : List ℤ) (leds : LedMap),
      (∀ j : ℤ, (∃ k ∈ leds.keys, k < j) ↔ ∃ k ∈ K0, k < j) →
      (∀ j : ℤ, (∃ k ∈ leds.keys, j < k) ↔ ∃ k ∈ K0, j < k) →
      ms.Nodup →
      (∀ j ∈ ms, ¬ j ∈ leds.keys) →
      (∀ j : ℤ, j ∈ (patch_iteration leds ms).1.keys ↔
          j ∈ leds.keys ∨ (j ∈ ms ∧ bounded_by K0 j)) ∧
      (patch_iteration leds ms).2 =
        (ms.filter (fun j => decide (bounded_by K0 j))).length ∧
      (∀ k : ℤ, k ∈ leds.keys →
        (patch_iteration leds ms).1.lookup k = leds.lookup k) ∧
      ((patch_iteration leds ms).2 = 0 → (patch_iteration leds ms).1 = leds) := by
  intro ms
  induction ms with
  | nil =>
    intro leds _ _ _ _
    simp [patch_iteration_nil]
  | cons i rest ih =>
    intro leds h1 h2 hnd hfresh
    have hifresh : ¬ i ∈ leds.keys := hfresh i (List.mem_cons_self i rest)
    have hrestfresh : ∀ j ∈ rest, ¬ j ∈ leds.keys :=
      fun j hj => hfresh j (List.mem_cons_of_mem i hj)
    rcases hp : find_nearest_prev_led leds i with _ | p
    · have hnb : ¬ bounded_by K0 i := by
        rintro ⟨hb, _⟩
        rw [find_nearest_prev_led_eq_none] at hp
        obtain ⟨k, hk, hlt⟩ := (h1 i).mpr hb
        exact hp k hk hlt
      rw [patch_iteration_cons_no_prev hp]
      obtain ⟨Cmem, Ccnt, Clku, Cunch⟩ :=
        ih leds h1 h2 (List.Nodup.of_cons hnd) hrestfresh
      refine ⟨?_, ?_, Clku, Cunch⟩
      · intro j
        rw [Cmem j]
        simp only [List.mem_cons]
        constructor
        · rintro (h | ⟨hj, hb⟩)
          exacts [Or.inl h, Or.inr ⟨Or.inr hj, hb⟩]
        · rintro (h | ⟨rfl | hj, hb⟩)
          exacts [Or.inl h, absurd hb hnb, Or.inr ⟨hj, hb⟩]
      · rw [Ccnt, List.filter_cons]
        simp [hnb]
    · rcases hn : find_nearest_next_led leds i with _ | n
      · have hnb : ¬ bounded_by K0 i := by
          rintro ⟨_, hb⟩
          rw [find_nearest_next_led_eq_none] at hn
          obtain ⟨k, hk, hlt⟩ := (h2 i).mpr hb
          exact hn k hk hlt
        rw [patch_iteration_cons_no_next hn]
        obtain ⟨Cmem, Ccnt, Clku, Cunch⟩ :=
          ih leds h1 h2 (List.Nodup.of_cons hnd) hrestfresh
        refine ⟨?_, ?_, Clku, Cunch⟩
        · intro j
          rw [Cmem j]
          simp only [List.mem_cons]
          constructor
          · rintro (h | ⟨hj, hb⟩)
            exacts [Or.inl h, Or.inr ⟨Or.inr hj, hb⟩]
          · rintro (h | ⟨rfl | hj, hb⟩)
            exacts [Or.inl h, absurd hb hnb, Or.inr ⟨hj, hb⟩]
        · rw [Ccnt, List.filter_cons]
          simp [hnb]
      · have hex1 : ∃ k ∈ leds.keys, k < i := by
          obtain ⟨⟨hkm, hkl⟩, _⟩ := find_nearest_prev_led_eq_some.mp hp
          exact ⟨p, hkm, hkl⟩
        have hex2 : ∃ k ∈ leds.keys, i < k := by
          obtain ⟨⟨hkm, hkl⟩, _⟩ := find_nearest_next_led_eq_some.mp hn
          exact ⟨n, hkm, hkl⟩
        have hb : bounded_by K0 i := ⟨(h1 i).mp hex1, (h2 i).mp hex2⟩
        have inotrest : i ∉ rest := (List.nodup_cons.mp hnd).1
        have h1' : ∀ j : ℤ,
            (∃ k ∈ (leds.insert i (interpolate_led leds i p n)).keys, k < j) ↔
              ∃ k ∈ K0, k < j :=
          fun j => (exists_lt_key_insert hex1 j).trans (h1 j)
        have h2' : ∀ j : ℤ,
            (∃ k ∈ (leds.insert i (interpolate_led leds i p n)).keys, j < k) ↔
              ∃ k ∈ K0, j < k :=
          fun j => (exists_gt_key_insert hex2 j).trans (h2 j)
        have hfresh' : ∀ j ∈ rest,
            ¬ j ∈ (leds.insert i (interpolate_led leds i p n)).keys := by
          intro j hj hmem
          rcases mem_keys_insert.mp hmem with rfl | hmem
          · exact inotrest hj
          · exact hrestfresh j hj hmem
        obtain ⟨Cmem, Ccnt, Clku, Cunch⟩ :=
          ih (leds.insert i (interpolate_led leds i p n)) h1' h2'
            (List.Nodup.of_cons hnd) hfresh'
        rw [patch_iteration_cons_patch hp hn]
        refine ⟨?_, ?_, ?_, ?_⟩
        · intro j
          show j ∈ (patch_iteration (leds.insert i (interpolate_led leds i p n))
            rest).1.keys ↔ _
          rw [Cmem j, mem_keys_insert]
          simp only [List.mem_cons]
          constructor
          · rintro ((rfl | h) | ⟨hj, hbj⟩)
            · exact Or.inr ⟨Or.inl rfl, hb⟩
            · exact Or.inl h
            · exact Or.inr ⟨Or.inr hj, hbj⟩
          · rintro (h | ⟨rfl | hj, hbj⟩)
            · exact Or.inl (Or.inr h)
            · exact Or.inl (Or.inl rfl)
            · exact Or.inr ⟨hj, hbj⟩
        · show (patch_iteration (leds.insert i (interpolate_led leds i p n))
            rest).2 + 1 = _
          rw [Ccnt, List.filter_cons]
          simp [hb]
        · intro k hk
          show (patch_iteration (leds.insert i (interpolate_led leds i p n))
            rest).1.lookup k = _
          have hki : k ≠ i := fun h => hifresh (h ▸ hk)
          rw [Clku k (mem_keys_insert.mpr (Or.inr hk)), lookup_insert_of_ne hki]
        · intro h0
          exact absurd h0 (by simp)

/-! The engine's pass: instantiation at the missing ids -/

theorem patch_iteration_run (leds : LedMap) (total_leds : ℤ) :
    (∀ j : ℤ,
      j ∈ (patch_iteration leds (find_missing_ids leds total_leds)).1.keys ↔
        j ∈ leds.keys ∨
          (j ∈ find_missing_ids leds total_leds ∧ bounded_by leds.keys j)) ∧
    (patch_iteration leds (find_missing_ids leds total_leds)).2 =
      ((find_missing_ids leds total_leds).filter
        (fun j => decide (bounded_by leds.keys j))).length ∧
    (∀ k : ℤ, k ∈ leds.keys →
      (patch_iteration leds (find_missing_ids leds total_leds)).1.lookup k =
        leds.lookup k) ∧
    ((patch_iteration leds (find_missing_ids leds total_leds)).2 = 0 →
      (patch_iteration leds (find_missing_ids leds total_leds)).1 = leds) :=
  patch_iteration_spec leds.keys (find_missing_ids leds total_leds) leds
    (fun _ => Iff.rfl) (fun _ => Iff.rfl)
    (find_missing_ids_nodup leds total_leds)
    (fun _ hj => (mem_find_missing_ids.mp hj).2.2)

theorem patch_iteration_mem {leds : LedMap} {total_leds j : ℤ} :
    j ∈ (patch_iteration leds (find_missing_ids leds total_leds)).1.keys ↔
      j ∈ leds.keys ∨
        (j ∈ find_missing_ids leds total_leds ∧ bounded_by leds.keys j) :=
  (patch_iteration_run leds total_leds).1 j

theorem patch_iteration_count {leds : LedMap} {total_leds : ℤ} :
    (patch_iteration leds (find_missing_ids leds total_leds)).2 =
      ((find_missing_ids leds total_leds).filter
        (fun j => decide (bounded_by leds.keys j))).length :=
  (patch_iteration_run leds total_leds).2.1

theorem patch_iteration_lookup {leds : LedMap} {total_leds k : ℤ}
    (hk : k ∈ leds.keys) :
    (patch_iteration leds (find_missing_ids leds total_leds)).1.lookup k =
      leds.lookup k :=
  (patch_iteration_run leds total_leds).2.2.1 k hk

theorem patch_iteration_unchanged {leds : LedMap} {total_leds : ℤ}
    (h : (patch_iteration leds (find_missing_ids leds total_leds)).2 = 0) :
    (patch_iteration leds (find_missing_ids leds total_leds)).1 = leds :=
  (patch_iteration_run leds total_leds).2.2.2 h

/-- The pass patches zero ids exactly when every missing id lies
outside the span of the present keys. -/
theorem patch_count_zero_iff {leds : LedMap} {total_leds : ℤ} :
    (patch_iteration leds (find_missing_ids leds total_leds)).2 = 0 ↔
      edge_only leds total_leds := by
  rw [patch_iteration_count, List.length_eq_zero, List.filter_eq_nil_iff]
  unfold edge_only bounded_by
  constructor
  · intro h j hj
    have hnb := h j hj
    rw [decide_eq_true_eq, not_and_or] at hnb
    have hjk : ¬ j ∈ leds.keys := (mem_find_missing_ids.mp hj).2.2
    rcases hnb with hnb | hnb
    · push_neg at hnb
      refine Or.inl (fun k hk => ?_)
      have := hnb k hk
      have : j ≠ k := fun h => hjk (h ▸ hk)
      omega
    · push_neg at hnb
      refine Or.inr (fun k hk => ?_)
      have := hnb k hk
      have : j ≠ k := fun h => hjk (h ▸ hk)
      omega
  · intro h j hj
    rw [decide_eq_true_eq, not_and_or]
    rcases h j hj with h' | h'
    · refine Or.inl ?_
      rintro ⟨k, hk, hlt⟩
      have := h' k hk
      omega
    · refine Or.inr ?_
      rintro ⟨k, hk, hlt⟩
      have := h' k hk
      omega

/-- The missing ids after a pass are exactly the missing ids that were
not interior gaps at the start of the pass. -/
theorem find_missing_ids_after_iteration (leds : LedMap) (total_leds : ℤ) :
    find_missing_ids (patch_iteration leds (find_missing_ids leds total_leds)).1
        total_leds =
      (find_missing_ids leds total_leds).filter
        (fun j => decide (¬ bounded_by leds.keys j)) := by
  show (List.map (fun n : ℕ => (n : ℤ)) (List.range total_leds.toNat)).filter
      (fun i => decide
        (¬ i ∈ (patch_iteration leds (find_missing_ids leds total_leds)).1.keys)) =
    ((List.map (fun n : ℕ => (n : ℤ)) (List.range total_leds.toNat)).filter
      (fun i => decide (¬ i ∈ leds.keys))).filter
      (fun j => decide (¬ bounded_by leds.keys j))
  rw [List.filter_filter]
  apply List.filter_congr
  intro j hj
  rw [List.mem_map] at hj
  obtain ⟨m, hm, rfl⟩ := hj
  rw [List.mem_range] at hm
  rw [← Bool.decide_and, decide_eq_decide]
  rw [patch_iteration_mem]
  have hmiss : (↑m : ℤ) ∈ find_missing_ids leds total_leds ↔
      ¬ (↑m : ℤ) ∈ leds.keys := by
    rw [mem_find_missing_ids]
    constructor
    · exact fun h => h.2.2
    · exact fun h => ⟨by omega, by omega, h⟩
  rw [hmiss]
  tauto

theorem length_filter_partition {α : Type} (l : List α) (p : α → Bool) :
    (l.filter p).length + (l.filter (fun a => ! p a)).length = l.length := by
  induction l with
  | nil => rfl
  | cons a l ih => cases h : p a <;> simp [List.filter_cons, h] <;> omega

/-- A pass shrinks the missing set by exactly the number of interior
gaps present at its start. -/
theorem find_missing_ids_length_after (leds : LedMap) (total_leds : ℤ) :
    (find_missing_ids (patch_iteration leds (find_missing_ids leds total_leds)).1
        total_leds).length =
      (find_missing_ids leds total_leds).length -
        ((find_missing_ids leds total_leds).filter
          (fun j => decide (bounded_by leds.keys j))).length := by
  rw [find_missing_ids_after_iteration]
  have h := length_filter_partition (find_missing_ids leds total_leds)
    (fun j => decide (bounded_by leds.keys j))
  have he : (find_missing_ids leds total_leds).filter
        (fun j => decide (¬ bounded_by leds.keys j)) =
      (find_missing_ids leds total_leds).filter
        (fun j => ! decide (bounded_by leds.keys j)) := by
    apply List.filter_congr
    intro j _
    rw [decide_not]
  rw [he]
  omega

/-- After one pass, every id still missing lies outside the span of the
present keys (the pass patches every interior gap). -/
theorem edge_only_after_iteration (leds : LedMap) (total_leds : ℤ) :
    edge_only (patch_iteration leds (find_missing_ids leds total_leds)).1
      total_leds := by
  intro j hj
  rw [find_missing_ids_after_iteration, List.mem_filter] at hj
  obtain ⟨hj0, hnb⟩ := hj
  have hnb' : ¬ bounded_by leds.keys j := of_decide_eq_true hnb
  have hjk : ¬ j ∈ leds.keys := (mem_find_missing_ids.mp hj0).2.2
  rw [bounded_by, not_and_or] at hnb'
  rcases hnb' with h | h
  · push_neg at h
    refine Or.inl (fun k hk => ?_)
    rw [patch_iteration_mem] at hk
    rcases hk with hk | ⟨_, ⟨a, ha, halt⟩, _⟩
    · have := h k hk
      have : j ≠ k := fun he => hjk (he ▸ hk)
      omega
    · have := h a ha
      omega
  · push_neg at h
    refine Or.inr (fun k hk => ?_)
    rw [patch_iteration_mem] at hk
    rcases hk with hk | ⟨_, _, ⟨b, hb, hblt⟩⟩
    · have := h k hk
      have : j ≠ k := fun he => hjk (he ▸ hk)
      omega
    · have := h b hb
      omega

/-- An id strictly outside the span of the present keys stays strictly
outside the span after a pass. -/
theorem outside_preserved_iteration {leds : LedMap} {total_leds i : ℤ}
    (h : (∀ k ∈ leds.keys, i < k) ∨ (∀ k ∈ leds.keys, k < i)) :
    (∀ k ∈ (patch_iteration leds (find_missing_ids leds total_leds)).1.keys,
        i < k) ∨
      (∀ k ∈ (patch_iteration leds (find_missing_ids leds total_leds)).1.keys,
        k < i) := by
  rcases h with h | h
  · refine Or.inl (fun k hk => ?_)
    rw [patch_iteration_mem] at hk
    rcases hk with hk | ⟨_, ⟨a, ha, halt⟩, _⟩
    · exact h k hk
    · have := h a ha
      omega
  · refine Or.inr (fun k hk => ?_)
    rw [patch_iteration_mem] at hk
    rcases hk with hk | ⟨_, _, ⟨b, hb, hblt⟩⟩
    · exact h k hk
    · have := h b hb
      omega

/-! Unfolding equations of `patch_loop` and `iter_states` -/

theorem patch_loop_zero (total_leds : ℤ) (leds : LedMap) :
    patch_loop total_leds 0 leds =
      (leds, if (LedMap.size leds : ℤ) < total_leds then PatchState.exhausted
             else PatchState.converged) :=
  rfl

theorem patch_loop_succ_done {total_leds : ℤ} {fuel : ℕ} {leds : LedMap}
    (h : ¬ (LedMap.size leds : ℤ) < total_leds) :
    patch_loop total_leds (fuel + 1) leds = (leds, PatchState.converged) := by
  simp only [patch_loop, if_neg h]

theorem patch_loop_succ_nomissing {total_leds : ℤ} {fuel : ℕ} {leds : LedMap}
    (h : (LedMap.size leds : ℤ) < total_leds)
    (h2 : find_missing_ids leds total_leds = []) :
    patch_loop total_leds (fuel + 1) leds = (leds, PatchState.converged) := by
  simp only [patch_loop, if_pos h, if_pos h2]

theorem patch_loop_succ_stall {total_leds : ℤ} {fuel : ℕ} {leds : LedMap}
    (h : (LedMap.size leds : ℤ) < total_leds)
    (h2 : ¬ find_missing_ids leds total_leds = [])
    (h3 : (patch_iteration leds (find_missing_ids leds total_leds)).2 = 0) :
    patch_loop total_leds (fuel + 1) leds =
      ((patch_iteration leds (find_missing_ids leds total_leds)).1,
        PatchState.stalled) := by
  simp only [patch_loop, if_pos h, if_neg h2, if_pos h3]

theorem patch_loop_succ_step {total_leds : ℤ} {fuel : ℕ} {leds : LedMap}
    (h : (LedMap.size leds : ℤ) < total_leds)
    (h2 : ¬ find_missing_ids leds total_leds = [])
    (h3 : ¬ (patch_iteration leds (find_missing_ids leds total_leds)).2 = 0) :
    patch_loop total_leds (fuel + 1) leds =
      patch_loop total_leds fuel
        (patch_iteration leds (find_missing_ids leds total_leds)).1 := by
  simp only [patch_loop, if_pos h, if_neg h2, if_neg h3]

theorem iter_states_zero (total_leds : ℤ) (leds : LedMap) :
    iter_states total_leds 0 leds = [] :=
  rfl

theorem iter_states_succ_done {total_leds : ℤ} {fuel : ℕ} {leds : LedMap}
    (h : ¬ (LedMap.size leds : ℤ) < total_leds) :
    iter_states total_leds (fuel + 1) leds = [] := by
  simp only [iter_states, if_neg h]

theorem iter_states_succ_nomissing {total_leds : ℤ} {fuel : ℕ} {leds : LedMap}
    (h : (LedMap.size leds : ℤ) < total_leds)
    (h2 : find_missing_ids leds total_leds = []) :
    iter_states total_leds (fuel + 1) leds = [] := by
  simp only [iter_states, if_pos h, if_pos h2]

theorem iter_states_succ_stall {total_leds : ℤ} {fuel : ℕ} {leds : LedMap}
    (h : (LedMap.size leds : ℤ) < total_leds)
    (h2 : ¬ find_missing_ids leds total_leds = [])
    (h3 : (patch_iteration leds (find_missing_ids leds total_leds)).2 = 0) :
    iter_states total_leds (fuel + 1) leds = [leds] := by
  simp only [iter_states, if_pos h, if_neg h2, if_pos h3]

theorem iter_states_succ_step {total_leds : ℤ} {fuel : ℕ} {leds : LedMap}
    (h : (LedMap.size leds : ℤ) < total_leds)
    (h2 : ¬ find_missing_ids leds total_leds = [])
    (h3 : ¬ (patch_iteration leds (find_missing_ids leds total_leds)).2 = 0) :
    iter_states total_leds (fuel + 1) leds =
      leds :: iter_states total_leds fuel
        (patch_iteration leds (find_missing_ids leds total_leds)).1 := by
  simp only [iter_states, if_pos h, if_neg h2, if_neg h3]

/-! Loop-level invariants -/

/-- Frame property of the whole loop: a record present in the map (at
any loop state) is still there, unchanged, when the loop returns. -/
theorem patch_loop_lookup (total_leds : ℤ) :
    ∀ (fuel : ℕ) (leds : LedMap) (k : ℤ) (r : Record),
      leds.lookup k = some r →
      (patch_loop total_leds fuel leds).1.lookup k = some r := by
  intro fuel
  induction fuel with
  | zero =>
    intro leds k r h
    rw [patch_loop_zero]
    exact h
  | succ fuel ih =>
    intro leds k r h
    by_cases h1 : (LedMap.size leds : ℤ) < total_leds
    · by_cases h2 : find_missing_ids leds total_leds = []
      · rw [patch_loop_succ_nomissing h1 h2]
        exact h
      · by_cases h3 :
          (patch_iteration leds (find_missing_ids leds total_leds)).2 = 0
        · rw [patch_loop_succ_stall h1 h2 h3]
          show (patch_iteration leds (find_missing_ids leds total_leds)).1.lookup
            k = some r
          rw [patch_iteration_unchanged h3]
          exact h
        · rw [patch_loop_succ_step h1 h2 h3]
          apply ih
          have hk : k ∈ leds.keys := by
            rw [← AList.mem_keys]
            exact AList.lookup_isSome.mp (by rw [h]; rfl)
          rw [patch_iteration_lookup hk]
          exact h
    · rw [patch_loop_succ_done h1]
      exact h

/-- Keys only ever get added by the loop. -/
theorem patch_loop_mem_mono (total_leds : ℤ) :
    ∀ (fuel : ℕ) (leds : LedMap) (k : ℤ),
      k ∈ leds.keys → k ∈ (patch_loop total_leds fuel leds).1.keys := by
  intro fuel
  induction fuel with
  | zero =>
    intro leds k h
    rw [patch_loop_zero]
    exact h
  | succ fuel ih =>
    intro leds k h
    by_cases h1 : (LedMap.size leds : ℤ) < total_leds
    · by_cases h2 : find_missing_ids leds total_leds = []
      · rw [patch_loop_succ_nomissing h1 h2]
        exact h
      · by_cases h3 :
          (patch_iteration leds (find_missing_ids leds total_leds)).2 = 0
        · rw [patch_loop_succ_stall h1 h2 h3]
          show k ∈ (patch_iteration leds (find_missing_ids leds total_leds)).1.keys
          exact patch_iteration_mem.mpr (Or.inl h)
        · rw [patch_loop_succ_step h1 h2 h3]
          exact ih _ _ (patch_iteration_mem.mpr (Or.inl h))
    · rw [patch_loop_succ_done h1]
      exact h

/-- Every key of the returned map either was present initially or is
an id of the target range `[0, total_leds)` inserted by patching. -/
theorem patch_loop_keys_origin (total_leds : ℤ) :
    ∀ (fuel : ℕ) (leds : LedMap) (k : ℤ),
      k ∈ (patch_loop total_leds fuel leds).1.keys →
      k ∈ leds.keys ∨ (0 ≤ k ∧ k < total_leds) := by
  intro fuel
  induction fuel with
  | zero =>
    intro leds k h
    rw [patch_loop_zero] at h
    exact Or.inl h
  | succ fuel ih =>
    intro leds k h
    by_cases h1 : (LedMap.size leds : ℤ) < total_leds
    · by_cases h2 : find_missing_ids leds total_leds = []
      · rw [patch_loop_succ_nomissing h1 h2] at h
        exact Or.inl h
      · by_cases h3 :
          (patch_iteration leds (find_missing_ids leds total_leds)).2 = 0
        · rw [patch_loop_succ_stall h1 h2 h3] at h
          replace h : k ∈
              (patch_iteration leds (find_missing_ids leds total_leds)).1.keys := h
          rw [patch_iteration_unchanged h3] at h
          exact Or.inl h
        · rw [patch_loop_succ_step h1 h2 h3] at h
          rcases ih _ _ h with h' | h'
          · rcases patch_iteration_mem.mp h' with h'' | ⟨hm, _⟩
            · exact Or.inl h''
            · have := mem_find_missing_ids.mp hm
              exact Or.inr ⟨this.1, this.2.1⟩
          · exact Or.inr h'
    · rw [patch_loop_succ_done h1] at h
      exact Or.inl h

/-- An id strictly outside the span of the initially present keys is
outside the span of the returned keys as well — in particular it is
never inserted, whatever the iteration cap. -/
theorem patch_loop_outside (total_leds : ℤ) :
    ∀ (fuel : ℕ) (leds : LedMap) (i : ℤ),
      ((∀ k ∈ leds.keys, i < k) ∨ (∀ k ∈ leds.keys, k < i)) →
      ((∀ k ∈ (patch_loop total_leds fuel leds).1.keys, i < k) ∨
        (∀ k ∈ (patch_loop total_leds fuel leds).1.keys, k < i)) := by
  intro fuel
  induction fuel with
  | zero =>
    intro leds i h
    rw [patch_loop_zero]
    exact h
  | succ fuel ih =>
    intro leds i h
    by_cases h1 : (LedMap.size leds : ℤ) < total_leds
    · by_cases h2 : find_missing_ids leds total_leds = []
      · rw [patch_loop_succ_nomissing h1 h2]
        exact h
      · by_cases h3 :
          (patch_iteration leds (find_missing_ids leds total_leds)).2 = 0
        · rw [patch_loop_succ_stall h1 h2 h3]
          exact outside_preserved_iteration h
        · rw [patch_loop_succ_step h1 h2 h3]
          exact ih _ _ (outside_preserved_iteration h)
    · rw [patch_loop_succ_done h1]
      exact h

/-- With edge-only gaps the loop returns at once: a stall when the
guard fires and ids are missing, convergence otherwise, and in either
case the map is returned untouched. -/
theorem patch_loop_of_edge_only {total_leds : ℤ} {fuel : ℕ} {leds : LedMap}
    (he : edge_only leds total_leds) :
    patch_loop total_leds (fuel + 1) leds =
      (leds,
        if (LedMap.size leds : ℤ) < total_leds then
          if find_missing_ids leds total_leds = [] then PatchState.converged
          else PatchState.stalled
        else PatchState.converged) := by
  by_cases h1 : (LedMap.size leds : ℤ) < total_leds
  · by_cases h2 : find_missing_ids leds total_leds = []
    · rw [patch_loop_succ_nomissing h1 h2, if_pos h1, if_pos h2]
    · have h3 : (patch_iteration leds (find_missing_ids leds total_leds)).2 = 0 :=
        patch_count_zero_iff.mpr he
      rw [patch_loop_succ_stall h1 h2 h3, patch_iteration_unchanged h3,
        if_pos h1, if_neg h2]
  · rw [patch_loop_succ_done h1, if_neg h1]

/-- Two iterations of budget decide the run: any larger budget returns
the same map and the same terminal state. -/
theorem patch_loop_fuel_two (total_leds : ℤ) (fuel : ℕ) (leds : LedMap) :
    patch_loop total_leds (fuel + 2) leds = patch_loop total_leds 2 leds := by
  by_cases h1 : (LedMap.size leds : ℤ) < total_leds
  · by_cases h2 : find_missing_ids leds total_leds = []
    · rw [show fuel + 2 = (fuel + 1) + 1 from rfl,
        patch_loop_succ_nomissing h1 h2,
        show (2 : ℕ) = 1 + 1 from rfl, patch_loop_succ_nomissing h1 h2]
    · by_cases h3 :
        (patch_iteration leds (find_missing_ids leds total_leds)).2 = 0
      · rw [show fuel + 2 = (fuel + 1) + 1 from rfl, patch_loop_succ_stall h1 h2 h3,
          show (2 : ℕ) = 1 + 1 from rfl, patch_loop_succ_stall h1 h2 h3]
      · rw [show fuel + 2 = (fuel + 1) + 1 from rfl, patch_loop_succ_step h1 h2 h3,
          show (2 : ℕ) = 1 + 1 from rfl, patch_loop_succ_step h1 h2 h3]
        have he : edge_only
            (patch_iteration leds (find_missing_ids leds total_leds)).1
            total_leds := edge_only_after_iteration leds total_leds
        rw [show (1 : ℕ) = 0 + 1 from rfl, patch_loop_of_edge_only he,
          patch_loop_of_edge_only he]
  · rw [show fuel + 2 = (fuel + 1) + 1 from rfl, patch_loop_succ_done h1,
      show (2 : ℕ) = 1 + 1 from rfl, patch_loop_succ_done h1]

/-- A budget of two iterations never exhausts. -/
theorem patch_loop_two_not_exhausted (total_leds : ℤ) (leds : LedMap) :
    (patch_loop total_leds 2 leds).2 ≠ PatchState.exhausted := by
  by_cases h1 : (LedMap.size leds : ℤ) < total_leds
  · by_cases h2 : find_missing_ids leds total_leds = []
    · rw [show (2 : ℕ) = 1 + 1 from rfl, patch_loop_succ_nomissing h1 h2]
      simp
    · by_cases h3 :
        (patch_iteration leds (find_missing_ids leds total_leds)).2 = 0
      · rw [show (2 : ℕ) = 1 + 1 from rfl, patch_loop_succ_stall h1 h2 h3]
        simp
      · rw [show (2 : ℕ) = 1 + 1 from rfl, patch_loop_succ_step h1 h2 h3]
        have he : edge_only
            (patch_iteration leds (find_missing_ids leds total_leds)).1
            total_leds := edge_only_after_iteration leds total_leds
        rw [show (1 : ℕ) = 0 + 1 from rfl, patch_loop_of_edge_only he]
        by_cases g1 : (LedMap.size
            (patch_iteration leds (find_missing_ids leds total_leds)).1 : ℤ) <
            total_leds
        · by_cases g2 : find_missing_ids
              (patch_iteration leds (find_missing_ids leds total_leds)).1
              total_leds = []
          · simp [if_pos g1, if_pos g2]
          · simp [if_pos g1, if_neg g2]
        · simp [if_neg g1]
  · rw [show (2 : ℕ) = 1 + 1 from rfl, patch_loop_succ_done h1]
    simp

/-- Every state recorded in `iter_states` has the loop guard true and
a nonempty missing set. -/
theorem iter_states_guard (total_leds : ℤ) :
    ∀ (fuel : ℕ) (leds : LedMap) (m : LedMap),
      m ∈ iter_states total_leds fuel leds →
      ((LedMap.size m : ℤ) < total_leds ∧
        find_missing_ids m total_leds ≠ []) := by
  intro fuel
  induction fuel with
  | zero =>
    intro leds m h
    rw [iter_states_zero] at h
    cases h
  | succ fuel ih =>
    intro leds m h
    by_cases h1 : (LedMap.size leds : ℤ) < total_leds
    · by_cases h2 : find_missing_ids leds total_leds = []
      · rw [iter_states_succ_nomissing h1 h2] at h
        cases h
      · by_cases h3 :
          (patch_iteration leds (find_missing_ids leds total_leds)).2 = 0
        · rw [iter_states_succ_stall h1 h2 h3] at h
          rcases List.mem_singleton.mp h with rfl
          exact ⟨h1, h2⟩
        · rw [iter_states_succ_step h1 h2 h3] at h
          rcases List.mem_cons.mp h with rfl | h
          · exact ⟨h1, h2⟩
          · exact ih _ _ h
    · rw [iter_states_succ_done h1] at h
      cases h

/-- The loop ends STALLED exactly when one of the passes it executed
patched zero ids, and the stalling state's map is what is returned. -/
theorem patch_loop_stalled_iff (total_leds : ℤ) :
    ∀ (fuel : ℕ) (leds : LedMap),
      ((patch_loop total_leds fuel leds).2 = PatchState.stalled ↔
        ∃ m ∈ iter_states total_leds fuel leds,
          (patch_iteration m (find_missing_ids m total_leds)).2 = 0 ∧
            (patch_loop total_leds fuel leds).1 = m) := by
  intro fuel
  induction fuel with
  | zero =>
    intro leds
    rw [patch_loop_zero, iter_states_zero]
    constructor
    · intro h
      by_cases h1 : (LedMap.size leds : ℤ) < total_leds
      · rw [if_pos h1] at h
        cases h
      · rw [if_neg h1] at h
        cases h
    · rintro ⟨m, hm, _⟩
      cases hm
  | succ fuel ih =>
    intro leds
    by_cases h1 : (LedMap.size leds : ℤ) < total_leds
    · by_cases h2 : find_missing_ids leds total_leds = []
      · rw [patch_loop_succ_nomissing h1 h2, iter_states_succ_nomissing h1 h2]
        constructor
        · intro h
          cases h
        · rintro ⟨m, hm, _⟩
          cases hm
      · by_cases h3 :
          (patch_iteration leds (find_missing_ids leds total_leds)).2 = 0
        · rw [patch_loop_succ_stall h1 h2 h3, iter_states_succ_stall h1 h2 h3]
          constructor
          · intro _
            exact ⟨leds, List.mem_singleton_self leds, h3,
              patch_iteration_unchanged h3⟩
          · intro _
            rfl
        · rw [patch_loop_succ_step h1 h2 h3, iter_states_succ_step h1 h2 h3]
          rw [ih]
          constructor
          · rintro ⟨m, hm, hc, hr⟩
            exact ⟨m, List.mem_cons_of_mem _ hm, hc, hr⟩
          · rintro ⟨m, hm, hc, hr⟩
            rcases List.mem_cons.mp hm with rfl | hm
            · exact absurd hc h3
            · exact ⟨m, hm, hc, hr⟩
    · rw [patch_loop_succ_done h1, iter_states_succ_done h1]
      constructor
      · intro h
        cases h
      · rintro ⟨m, hm, _⟩
        cases hm

/-- A map whose keys all lie in `[0, total)` has at most `total.toNat`
entries (keys are unique). -/
theorem size_le_of_keys_in_range {leds : LedMap} {total_leds : ℤ}
    (h : ∀ k ∈ leds.keys, 0 ≤ k ∧ k < total_leds) :
    LedMap.size leds ≤ total_leds.toNat := by
  rw [size_eq_keys_length, ← List.toFinset_card_of_nodup (AList.keys_nodup leds)]
  have hsub : leds.keys.toFinset ⊆ Finset.Ico (0 : ℤ) total_leds := by
    intro k hk
    rw [List.mem_toFinset] at hk
    rw [Finset.mem_Ico]
    exact h k hk
  calc leds.keys.toFinset.card ≤ (Finset.Ico (0 : ℤ) total_leds).card :=
        Finset.card_le_card hsub
    _ = total_leds.toNat := by rw [Int.card_Ico]; omega

/-! Evaluating the interpolator -/

theorem interpolate_led_eq {leds : LedMap} {i p n : ℤ} {pr nr : Record}
    (hp : leds.lookup p = some pr) (hn : leds.lookup n = some nr) :
    interpolate_led leds i p n =
      { x := pr.x * (1 - ((i - p : ℤ) : ℚ) / ((n - p : ℤ) : ℚ)) +
             nr.x * (((i - p : ℤ) : ℚ) / ((n - p : ℤ) : ℚ))
        y := pr.y * (1 - ((i - p : ℤ) : ℚ) / ((n - p : ℤ) : ℚ)) +
             nr.y * (((i - p : ℤ) : ℚ) / ((n - p : ℤ) : ℚ))
        z := pr.z * (1 - ((i - p : ℤ) : ℚ) / ((n - p : ℤ) : ℚ)) +
             nr.z * (((i - p : ℤ) : ℚ) / ((n - p : ℤ) : ℚ))
        xn := 0
        yn := 0
        zn := 0
        error := 0 } := by
  simp only [interpolate_led, hp, hn, Option.getD_some]

/-- Value of the first interpolated record of the spec's interpolation
example: id 1 between the records at ids 0 and 5. -/
theorem exInterp_val1 : interpolate_led exInterp 1 0 5 = ⟨2, 0, 0, 0, 0, 0, 0⟩ := by
  rw [interpolate_led_eq (show exInterp.lookup 0 = some ⟨0, 0, 0, 0, 0, 0, 0⟩ from rfl)
    (show exInterp.lookup 5 = some ⟨10, 0, 0, 0, 0, 0, 0⟩ from rfl)]
  simp only [Record.mk.injEq]
  norm_num

/-- Value at id 2, interpolated from the freshly inserted id 1 and id 5. -/
theorem exInterp_val2 : interpolate_led exm1 2 1 5 = ⟨4, 0, 0, 0, 0, 0, 0⟩ := by
  have h1 : exm1.lookup 1 = some (⟨2, 0, 0, 0, 0, 0, 0⟩ : Record) := by
    rw [show exm1.lookup 1 = some (interpolate_led exInterp 1 0 5) from rfl,
      exInterp_val1]
  rw [interpolate_led_eq h1
    (show exm1.lookup 5 = some ⟨10, 0, 0, 0, 0, 0, 0⟩ from rfl)]
  simp only [Record.mk.injEq]
  norm_num

/-- Value at id 3, interpolated from the freshly inserted id 2 and id 5. -/
theorem exInterp_val3 : interpolate_led exm2 3 2 5 = ⟨6, 0, 0, 0, 0, 0, 0⟩ := by
  have h2 : exm2.lookup 2 = some (⟨4, 0, 0, 0, 0, 0, 0⟩ : Record) := by
    rw [show exm2.lookup 2 = some (interpolate_led exm1 2 1 5) from rfl,
      exInterp_val2]
  rw [interpolate_led_eq h2
    (show exm2.lookup 5 = some ⟨10, 0, 0, 0, 0, 0, 0⟩ from rfl)]
  simp only [Record.mk.injEq]
  norm_num

/-- Value at id 4, interpolated from the freshly inserted id 3 and id 5. -/
theorem exInterp_val4 : interpolate_led exm3 4 3 5 = ⟨8, 0, 0, 0, 0, 0, 0⟩ := by
  have h3 : exm3.lookup 3 = some (⟨6, 0, 0, 0, 0, 0, 0⟩ : Record) := by
    rw [show exm3.lookup 3 = some (interpolate_led exm2 3 2 5) from rfl,
      exInterp_val3]
  rw [interpolate_led_eq h3
    (show exm3.lookup 5 = some ⟨10, 0, 0, 0, 0, 0, 0⟩ from rfl)]
  simp only [Record.mk.injEq]
  norm_num

theorem exInterp_patched : patch_leds exInterp 6 1000 = exm4 := rfl

/-! The claims -/

/-- Claim C8: `find_missing_ids leds total` returns exactly the ids of
`[0, total)` absent from the map, in ascending order, and is empty iff
the map already contains every id of the range.  (It is a pure Lean
function of the map, so "without modifying the map" is inherent to the
embedding, as in the source, which only reads `leds.keys`.) -/
theorem C8_find_missing_ids_contract (leds : LedMap) (total_leds : ℤ) :
    (∀ i : ℤ, i ∈ find_missing_ids leds total_leds ↔
      0 ≤ i ∧ i < total_leds ∧ ¬ i ∈ leds.keys) ∧
    (find_missing_ids leds total_leds).Pairwise (· < ·) ∧
    (find_missing_ids leds total_leds = [] ↔
      ∀ i : ℤ, 0 ≤ i → i < total_leds → i ∈ leds.keys) := by
  refine ⟨fun i => mem_find_missing_ids, find_missing_ids_sorted _ _, ?_⟩
  rw [List.eq_nil_iff_forall_not_mem]
  constructor
  · intro h i h0 hlt
    by_contra hk
    exact h i (mem_find_missing_ids.mpr ⟨h0, hlt, hk⟩)
  · intro h i hi
    have := mem_find_missing_ids.mp hi
    exact this.2.2 (h i this.1 this.2.1)

/-- Closed instance of C8 at a concrete input. -/
theorem C8_witness :
    ((∀ i : ℤ, i ∈ find_missing_ids exStall 5 ↔
        0 ≤ i ∧ i < 5 ∧ ¬ i ∈ exStall.keys) ∧
      (find_missing_ids exStall 5).Pairwise (· < ·) ∧
      (find_missing_ids exStall 5 = [] ↔
        ∀ i : ℤ, 0 ≤ i → i < 5 → i ∈ exStall.keys)) :=
  C8_find_missing_ids_contract exStall 5

/-- Claim C9: `find_nearest_prev_led leds i` is the maximum present
key strictly below `i` and `find_nearest_next_led leds i` the minimum
present key strictly above `i`; each returns `none` exactly when no
qualifying key exists.  Both are plain functions of the map passed at
call time (the loop passes the shared, already-grown map). -/
theorem C9_nearest_neighbor_contract (leds : LedMap) (i : ℤ) :
    (∀ p : ℤ, find_nearest_prev_led leds i = some p ↔
      p ∈ leds.keys ∧ p < i ∧ ∀ k ∈ leds.keys, k < i → k ≤ p) ∧
    (find_nearest_prev_led leds i = none ↔ ¬ ∃ k ∈ leds.keys, k < i) ∧
    (∀ n : ℤ, find_nearest_next_led leds i = some n ↔
      n ∈ leds.keys ∧ i < n ∧ ∀ k ∈ leds.keys, i < k → n ≤ k) ∧
    (find_nearest_next_led leds i = none ↔ ¬ ∃ k ∈ leds.keys, i < k) := by
  refine ⟨fun p => ?_, ?_, fun n => ?_, ?_⟩
  · rw [find_nearest_prev_led_eq_some]
    tauto
  · rw [find_nearest_prev_led_eq_none]
    push_neg
    constructor <;> intro h k hk <;> have := h k hk <;> omega
  · rw [find_nearest_next_led_eq_some]
    tauto
  · rw [find_nearest_next_led_eq_none]
    push_neg
    constructor <;> intro h k hk <;> have := h k hk <;> omega

/-- Closed instance of C9 at a concrete input. -/
theorem C9_witness :
    ((∀ p : ℤ, find_nearest_prev_led exStall 3 = some p ↔
        p ∈ exStall.keys ∧ p < 3 ∧ ∀ k ∈ exStall.keys, k < 3 → k ≤ p) ∧
      (find_nearest_prev_led exStall 3 = none ↔ ¬ ∃ k ∈ exStall.keys, k < 3) ∧
      (∀ n : ℤ, find_nearest_next_led exStall 3 = some n ↔
        n ∈ exStall.keys ∧ 3 < n ∧ ∀ k ∈ exStall.keys, 3 < k → n ≤ k) ∧
      (find_nearest_next_led exStall 3 = none ↔ ¬ ∃ k ∈ exStall.keys, 3 < k)) :=
  C9_nearest_neighbor_contract exStall 3

/-- Claim C2: with `prev_id < led_id < next_id` both present, the
interpolated record's position coordinates are the affine combination
of the neighbors weighted by `fraction = (led_id - prev_id) /
(next_id - prev_id)`, a value in the open interval `(0, 1)`; the
normal is `(0,0,0)` and the error `0.0`.  And on the spec's example
(`0 ↦ (0,0,0)`, `5 ↦ (10,0,0)`, target 6) the engine resolves ids
1,2,3,4 to x = 2,4,6,8 with y = z = 0, zero normal and zero error. -/
theorem C2_interpolate_contract :
    (∀ (leds : LedMap) (i p n : ℤ) (pr nr : Record),
      p < i → i < n →
      leds.lookup p = some pr → leds.lookup n = some nr →
      (0 < ((i - p : ℤ) : ℚ) / ((n - p : ℤ) : ℚ) ∧
        ((i - p : ℤ) : ℚ) / ((n - p : ℤ) : ℚ) < 1) ∧
      interpolate_led leds i p n =
        { x := pr.x * (1 - ((i - p : ℤ) : ℚ) / ((n - p : ℤ) : ℚ)) +
               nr.x * (((i - p : ℤ) : ℚ) / ((n - p : ℤ) : ℚ))
          y := pr.y * (1 - ((i - p : ℤ) : ℚ) / ((n - p : ℤ) : ℚ)) +
               nr.y * (((i - p : ℤ) : ℚ) / ((n - p : ℤ) : ℚ))
          z := pr.z * (1 - ((i - p : ℤ) : ℚ) / ((n - p : ℤ) : ℚ)) +
               nr.z * (((i - p : ℤ) : ℚ) / ((n - p : ℤ) : ℚ))
          xn := 0
          yn := 0
          zn := 0
          error := 0 }) ∧
    ((patch_leds exInterp 6 1000).lookup 1 = some ⟨2, 0, 0, 0, 0, 0, 0⟩ ∧
      (patch_leds exInterp 6 1000).lookup 2 = some ⟨4, 0, 0, 0, 0, 0, 0⟩ ∧
      (patch_leds exInterp 6 1000).lookup 3 = some ⟨6, 0, 0, 0, 0, 0, 0⟩ ∧
      (patch_leds exInterp 6 1000).lookup 4 = some ⟨8, 0, 0, 0, 0, 0, 0⟩) := by
  constructor
  · intro leds i p n pr nr hpi hin hp hn
    have hd : (0 : ℚ) < ((n - p : ℤ) : ℚ) := by
      have h : (0 : ℤ) < n - p := by omega
      exact_mod_cast h
    refine ⟨⟨?_, ?_⟩, interpolate_led_eq hp hn⟩
    · apply div_pos _ hd
      have h : (0 : ℤ) < i - p := by omega
      exact_mod_cast h
    · rw [div_lt_one hd]
      have h : (i - p : ℤ) < (n - p : ℤ) := by omega
      exact_mod_cast h
  · rw [exInterp_patched]
    refine ⟨?_, ?_, ?_, ?_⟩
    · rw [show exm4.lookup 1 = some (interpolate_led exInterp 1 0 5) from rfl,
        exInterp_val1]
    · rw [show exm4.lookup 2 = some (interpolate_led exm1 2 1 5) from rfl,
        exInterp_val2]
    · rw [show exm4.lookup 3 = some (interpolate_led exm2 3 2 5) from rfl,
        exInterp_val3]
    · rw [show exm4.lookup 4 = some (interpolate_led exm3 4 3 5) from rfl,
        exInterp_val4]

/-- Closed instance of C2's general part, hypotheses discharged at a
concrete input. -/
theorem C2_witness :
    (0 < ((1 - 0 : ℤ) : ℚ) / ((5 - 0 : ℤ) : ℚ) ∧
      ((1 - 0 : ℤ) : ℚ) / ((5 - 0 : ℤ) : ℚ) < 1) ∧
    interpolate_led exInterp 1 0 5 =
      { x := (0 : ℚ) * (1 - ((1 - 0 : ℤ) : ℚ) / ((5 - 0 : ℤ) : ℚ)) +
             (10 : ℚ) * (((1 - 0 : ℤ) : ℚ) / ((5 - 0 : ℤ) : ℚ))
        y := (0 : ℚ) * (1 - ((1 - 0 : ℤ) : ℚ) / ((5 - 0 : ℤ) : ℚ)) +
             (0 : ℚ) * (((1 - 0 : ℤ) : ℚ) / ((5 - 0 : ℤ) : ℚ))
        z := (0 : ℚ) * (1 - ((1 - 0 : ℤ) : ℚ) / ((5 - 0 : ℤ) : ℚ)) +
             (0 : ℚ) * (((1 - 0 : ℤ) : ℚ) / ((5 - 0 : ℤ) : ℚ))
        xn := 0
        yn := 0
        zn := 0
        error := 0 } :=
  C2_interpolate_contract.1 exInterp 1 0 5 ⟨0, 0, 0, 0, 0, 0, 0⟩
    ⟨10, 0, 0, 0, 0, 0, 0⟩ (by decide) (by decide) rfl rfl

/-- Claim C4: the engine inserts each interpolated record into the
shared map immediately (the recursive pass continues on
`leds.insert i …`, not on a buffer), and on the concrete map
`{0 ↦ (0,0,0), 4 ↦ (10,0,0)}` with target 5, the id 2 is visited with
nearest-below 1 — an id absent at the start of the iteration and
inserted earlier in the same ascending pass (before the pass, the
nearest key below 2 was 0). -/
theorem C4_intra_iteration_propagation :
    (∀ (leds : LedMap) (i : ℤ) (rest : List ℤ) (p n : ℤ),
      find_nearest_prev_led leds i = some p →
      find_nearest_next_led leds i = some n →
      patch_iteration leds (i :: rest) =
        ((patch_iteration (leds.insert i (interpolate_led leds i p n)) rest).1,
         (patch_iteration (leds.insert i (interpolate_led leds i p n)) rest).2
           + 1)) ∧
    (find_missing_ids exProp 5 = [1, 2, 3] ∧
      ¬ 1 ∈ exProp.keys ∧
      find_nearest_prev_led exProp 2 = some 0 ∧
      find_nearest_prev_led (exProp.insert 1 (interpolate_led exProp 1 0 4)) 2 =
        some 1 ∧
      1 ∈ (exProp.insert 1 (interpolate_led exProp 1 0 4)).keys) :=
  ⟨fun _ _ _ _ _ hp hn => patch_iteration_cons_patch hp hn, by decide⟩

/-- Closed instance of C4's step equation on the concrete map. -/
theorem C4_witness :
    patch_iteration exProp (1 :: [2, 3]) =
      ((patch_iteration (exProp.insert 1 (interpolate_led exProp 1 0 4))
          [2, 3]).1,
       (patch_iteration (exProp.insert 1 (interpolate_led exProp 1 0 4))
          [2, 3]).2 + 1) :=
  C4_intra_iteration_propagation.1 exProp 1 [2, 3] 0 4 (by decide) (by decide)

/-- Claim C6: an id strictly below every present key, or strictly
above every present key, is never inserted by the engine, in any
iteration and whatever the iteration cap (the returned map, which
contains every id ever inserted, does not contain it). -/
theorem C6_edge_gap_never_inserted (leds : LedMap) (total_leds : ℤ)
    (max_iterations : ℕ) (i : ℤ)
    (h : (∀ k ∈ leds.keys, i < k) ∨ (∀ k ∈ leds.keys, k < i)) :
    ¬ i ∈ (patch_leds leds total_leds max_iterations).keys := by
  intro hi
  have hi' : i ∈ (patch_loop total_leds max_iterations leds).1.keys := hi
  rcases patch_loop_outside total_leds max_iterations leds i h with h' | h'
  · exact absurd (h' i hi') (lt_irrefl i)
  · exact absurd (h' i hi') (lt_irrefl i)

/-- Closed instance of C6: id 0 of the stall scenario is below every
present key and indeed absent from the patched map. -/
theorem C6_witness :
    ((∀ k ∈ exStall.keys, (0 : ℤ) < k) ∨ (∀ k ∈ exStall.keys, k < (0 : ℤ))) ∧
    ¬ (0 : ℤ) ∈ (patch_leds exStall 5 1000).keys :=
  ⟨Or.inl (by decide),
    C6_edge_gap_never_inserted exStall 5 1000 0 (Or.inl (by decide))⟩

/-- Claim C7: records present before patching are returned unchanged
(id and all fields — the loop only ever inserts at ids that are absent
when their pass starts, so no entry is deleted or overwritten); since
the statement quantifies over every loop state `leds`, it covers in
particular entries the engine inserted itself in an earlier iteration.
New keys only appear at previously missing ids of `[0, total)`. -/
theorem C7_frame_no_overwrite (leds : LedMap) (total_leds : ℤ)
    (max_iterations : ℕ) :
    (∀ (k : ℤ) (r : Record), leds.lookup k = some r →
      (patch_leds leds total_leds max_iterations).lookup k = some r) ∧
    (∀ k : ℤ, k ∈ leds.keys →
      k ∈ (patch_leds leds total_leds max_iterations).keys) ∧
    (∀ k : ℤ, k ∈ (patch_leds leds total_leds max_iterations).keys →
      k ∈ leds.keys ∨ (¬ k ∈ leds.keys ∧ 0 ≤ k ∧ k < total_leds)) := by
  refine ⟨?_, ?_, ?_⟩
  · intro k r h
    exact patch_loop_lookup total_leds max_iterations leds k r h
  · intro k h
    exact patch_loop_mem_mono total_leds max_iterations leds k h
  · intro k h
    by_cases hk : k ∈ leds.keys
    · exact Or.inl hk
    · have h' : k ∈ (patch_loop total_leds max_iterations leds).1.keys := h
      rcases patch_loop_keys_origin total_leds max_iterations leds k h' with
        h'' | h''
      · exact absurd h'' hk
      · exact Or.inr ⟨hk, h''⟩

/-- Closed instance of C7: the original record at id 0 of the
interpolation example survives patching unchanged. -/
theorem C7_witness :
    (patch_leds exInterp 6 1000).lookup 0 = some ⟨0, 0, 0, 0, 0, 0, 0⟩ ∧
    (0 : ℤ) ∈ (patch_leds exInterp 6 1000).keys :=
  ⟨(C7_frame_no_overwrite exInterp 6 1000).1 0 ⟨0, 0, 0, 0, 0, 0, 0⟩ rfl,
    (C7_frame_no_overwrite exInterp 6 1000).2.1 0 (by decide)⟩

/-- Claim C5: the engine always terminates (in the embedding the loop
is structurally bounded by `max_iterations`, exactly the source's
`iteration < max_iterations` guard); an iteration that patches at
least one id shrinks the missing set by exactly the number of interior
gaps — missing ids with a present key below and above — it started
with; and once only edge gaps remain, the loop returns at once (with
the map untouched), never by cap exhaustion. -/
theorem C5_progress_and_stall (leds : LedMap) (total_leds : ℤ) :
    (1 ≤ (patch_iteration leds (find_missing_ids leds total_leds)).2 →
      (find_missing_ids
          (patch_iteration leds (find_missing_ids leds total_leds)).1
          total_leds).length =
        (find_missing_ids leds total_leds).length -
          ((find_missing_ids leds total_leds).filter
            (fun j => decide (bounded_by leds.keys j))).length) ∧
    (∀ fuel : ℕ, edge_only leds total_leds →
      (patch_loop total_leds (fuel + 1) leds).1 = leds ∧
      (patch_loop total_leds (fuel + 1) leds).2 ≠ PatchState.exhausted) := by
  constructor
  · intro _
    exact find_missing_ids_length_after leds total_leds
  · intro fuel he
    rw [patch_loop_of_edge_only he]
    refine ⟨rfl, ?_⟩
    by_cases h1 : (LedMap.size leds : ℤ) < total_leds
    · by_cases h2 : find_missing_ids leds total_leds = []
      · simp [if_pos h1, if_pos h2]
      · simp [if_pos h1, if_neg h2]
    · simp [if_neg h1]

/-- Closed instance of C5: exact shrinkage on the interpolation
example, and immediate edge-gap stall on a single-key map. -/
theorem C5_witness :
    ((find_missing_ids
        (patch_iteration exInterp (find_missing_ids exInterp 6)).1 6).length =
      (find_missing_ids exInterp 6).length -
        ((find_missing_ids exInterp 6).filter
          (fun j => decide (bounded_by exInterp.keys j))).length) ∧
    ((patch_loop 4 (0 + 1) exEdge).1 = exEdge ∧
      (patch_loop 4 (0 + 1) exEdge).2 ≠ PatchState.exhausted) :=
  ⟨(C5_progress_and_stall exInterp 6).1 (by decide),
    (C5_progress_and_stall exEdge 4).2 0 (by decide)⟩

/-- Claim C3: the run ends STALLED exactly when one of the passes it
actually executed (loop guard true, missing ids present) patched zero
ids — the stalling pass leaves the map untouched and that map is the
normal return value (the source prints a warning naming the remaining
count; printing is I/O outside the embedded state) — and a pass
patches zero ids exactly when every remaining missing id lies below
every present key or above every present key (below the minimum
present id or above the maximum present id). -/
theorem C3_stalled_characterization (leds : LedMap) (total_leds : ℤ)
    (fuel : ℕ) :
    ((patch_iteration leds (find_missing_ids leds total_leds)).2 = 0 ↔
      edge_only leds total_leds) ∧
    ((patch_loop total_leds fuel leds).2 = PatchState.stalled ↔
      ∃ m ∈ iter_states total_leds fuel leds,
        (patch_iteration m (find_missing_ids m total_leds)).2 = 0 ∧
          (patch_loop total_leds fuel leds).1 = m) ∧
    (∀ m ∈ iter_states total_leds fuel leds,
      (LedMap.size m : ℤ) < total_leds ∧ find_missing_ids m total_leds ≠ []) :=
  ⟨patch_count_zero_iff, patch_loop_stalled_iff total_leds fuel leds,
    iter_states_guard total_leds fuel leds⟩

/-- Closed instance of C3 on the stall scenario. -/
theorem C3_witness :
    ((patch_iteration exStall (find_missing_ids exStall 5)).2 = 0 ↔
      edge_only exStall 5) ∧
    ((patch_loop 5 1000 exStall).2 = PatchState.stalled ↔
      ∃ m ∈ iter_states 5 1000 exStall,
        (patch_iteration m (find_missing_ids m 5)).2 = 0 ∧
          (patch_loop 5 1000 exStall).1 = m) ∧
    (∀ m ∈ iter_states 5 1000 exStall,
      (LedMap.size m : ℤ) < 5 ∧ find_missing_ids m 5 ≠ []) :=
  C3_stalled_characterization exStall 5 1000

/-- Claim C10: every interior gap (missing id with a present key below
and above it) is inserted during the very first pass; consequently any
budget of at least two iterations returns exactly what a budget of two
returns, and EXHAUSTED is unreachable with `max_iterations ≥ 2`. -/
theorem C10_at_most_two_iterations (leds : LedMap) (total_leds : ℤ) :
    (∀ i ∈ find_missing_ids leds total_leds, bounded_by leds.keys i →
      i ∈ (patch_iteration leds (find_missing_ids leds total_leds)).1.keys) ∧
    (∀ fuel : ℕ,
      patch_loop total_leds (fuel + 2) leds = patch_loop total_leds 2 leds) ∧
    (∀ fuel : ℕ,
      (patch_loop total_leds (fuel + 2) leds).2 ≠ PatchState.exhausted) := by
  refine ⟨?_, ?_, ?_⟩
  · intro i hi hb
    exact patch_iteration_mem.mpr (Or.inr ⟨hi, hb⟩)
  · intro fuel
    exact patch_loop_fuel_two total_leds fuel leds
  · intro fuel
    rw [patch_loop_fuel_two total_leds fuel leds]
    exact patch_loop_two_not_exhausted total_leds leds

/-- Closed instance of C10 on the interpolation example. -/
theorem C10_witness :
    (2 : ℤ) ∈ (patch_iteration exInterp (find_missing_ids exInterp 6)).1.keys ∧
    patch_loop 6 (0 + 2) exInterp = patch_loop 6 2 exInterp ∧
    (patch_loop 6 (0 + 2) exInterp).2 ≠ PatchState.exhausted :=
  ⟨(C10_at_most_two_iterations exInterp 6).1 2 (by decide) (by decide),
    (C10_at_most_two_iterations exInterp 6).2.1 0,
    (C10_at_most_two_iterations exInterp 6).2.2 0⟩

/-- Claim C1 as stated fails: loaded ids are arbitrary integers and
the engine leaves them untouched, so a map loaded with keys `{3, 5}`
and target 1 is returned with 2 > 1 entries and the out-of-range key 3;
moreover with a negative target even the size bound alone fails on the
empty map. -/
theorem C1_counterexample :
    ((1 : ℤ) < (LedMap.size (patch_leds exOut 1 1000) : ℤ) ∧
      ∃ k ∈ (patch_leds exOut 1 1000).keys, ¬ (0 ≤ k ∧ k < 1)) ∧
    ¬ ((LedMap.size (patch_leds (∅ : LedMap) (-1) 1000) : ℤ) ≤ -1) := by
  decide

/-- Claim C1 amended: for a non-negative target and an input map whose
keys all lie in `[0, total_count)` — as produced by a well-formed
persisted source — the returned map has at most `total_count` entries
and every key lies in `[0, total_count)`. -/
theorem C1_amended_size_and_range (leds : LedMap) (total_leds : ℤ)
    (max_iterations : ℕ) (htot : 0 ≤ total_leds)
    (h : ∀ k ∈ leds.keys, 0 ≤ k ∧ k < total_leds) :
    (LedMap.size (patch_leds leds total_leds max_iterations) : ℤ) ≤
      total_leds ∧
    ∀ k ∈ (patch_leds leds total_leds max_iterations).keys,
      0 ≤ k ∧ k < total_leds := by
  have hkeys : ∀ k ∈ (patch_leds leds total_leds max_iterations).keys,
      0 ≤ k ∧ k < total_leds := by
    intro k hk
    have hk' : k ∈ (patch_loop total_leds max_iterations leds).1.keys := hk
    rcases patch_loop_keys_origin total_leds max_iterations leds k hk' with
      h' | h'
    · exact h k h'
    · exact h'
  refine ⟨?_, hkeys⟩
  have hle := size_le_of_keys_in_range hkeys
  omega

/-- Closed instance of the amended C1 on the stall scenario. -/
theorem C1_witness :
    (LedMap.size (patch_leds exStall 5 1000) : ℤ) ≤ 5 ∧
    ∀ k ∈ (patch_leds exStall 5 1000).keys, 0 ≤ k ∧ k < 5 :=
  C1_amended_size_and_range exStall 5 1000 (by decide) (by decide)

end GravyMap
